import Mathlib

/-!
# Verification of the Facebook Marketplace car-flipping pipeline

Shallow embedding of the core pipeline of `facebook_car_scraper.py`:
the enhanced text parser (`parse_car_text_enhanced`), the valuation
estimator (`get_market_pricing_estimate`), the deal scorer
(`calculate_deal_scores`), the pagination/stall scroll loop of
`scrape_facebook_marketplace_safe`, and its content-signature dedup.

Modelling conventions:
* Python strings are `List Char` (`Str` below); the texts handled by this
  pipeline are ASCII, and the character predicates (`isDigit`, `isUpper`,
  `isLower`, `toLower`, whitespace) agree with Python's on ASCII.
* Python floats are modelled by exact rationals `ℚ`; `int(x)` on a float
  is truncation toward zero (`pyTrunc`).  The counterexample inputs used
  below were chosen away from binary floating-point boundary effects.
* `int(s)` / `float(s)` on strings are modelled on the sign+digits
  (resp. sign+digits+fraction) fragment of Python's literal grammar,
  which covers every string this pipeline feeds them.
* `datetime.now().year` is an explicit parameter `cy` (current year).
-/

abbrev Str := List Char

/-- Character class `[0-9,]` of the price and mileage regexes. -/
def isDigitComma (c : Char) : Bool := c.isDigit || c == ','

/-- Python regex `\w` (word character) on ASCII, for `\b` boundaries. -/
def isWordChar (c : Char) : Bool := c.isAlphanum || c == '_'

/-- Python `str.lower()` on ASCII text. -/
def pyLower (s : Str) : Str := s.map Char.toLower

/-- Python `str.isdigit()`: nonempty and all digits. -/
def pyIsDigit (s : Str) : Bool := !s.isEmpty && s.all Char.isDigit

/-- One step of `str.title()`: upper-case an alphabetic character that
follows a non-alphabetic one, lower-case the rest. -/
def pyTitleAux : Bool → Str → Str
  | _, [] => []
  | prevAlpha, c :: rest =>
    (if c.isAlpha then (if prevAlpha then c.toLower else c.toUpper) else c)
      :: pyTitleAux c.isAlpha rest

/-- Python `str.title()` on ASCII text. -/
def pyTitle (s : Str) : Str := pyTitleAux false s

/-- Python truthiness `s or d` for an optional string. -/
def pyOr (s : Option Str) (d : Str) : Str :=
  match s with
  | some v => if v.isEmpty then d else v
  | none => d

/-- Numeric value of a decimal digit character. -/
def charVal (c : Char) : ℕ := c.toNat - 48

/-- Decimal digit character for a value below 10. -/
def digitChar : ℕ → Char
  | 0 => '0' | 1 => '1' | 2 => '2' | 3 => '3' | 4 => '4'
  | 5 => '5' | 6 => '6' | 7 => '7' | 8 => '8' | 9 => '9'
  | _ => '*'

/-- Value of a digit string (most significant first). -/
def digitsToNat (s : Str) : ℕ := s.foldl (fun a c => a * 10 + charVal c) 0

/-- Decimal rendering of a natural number, with explicit fuel (the fuel
`n + 1` always suffices). -/
def natToStrAux : ℕ → ℕ → Str
  | 0, _ => []
  | fuel + 1, n =>
    if n < 10 then [digitChar n]
    else natToStrAux fuel (n / 10) ++ [digitChar (n % 10)]

/-- Python `str(n)` for a natural number. -/
def natToStr (n : ℕ) : Str := natToStrAux (n + 1) n

/-- Python `str(i)` for an integer. -/
def intToStr (i : ℤ) : Str :=
  if i < 0 then '-' :: natToStr (-i).toNat else natToStr i.toNat

/-- Parse a nonempty all-digit string. -/
def parseDigits (s : Str) : Option ℕ :=
  if !s.isEmpty && s.all Char.isDigit then some (digitsToNat s) else none

/-- Python `int(s)` on the optional-sign + digits fragment of its grammar
(the only shape this pipeline produces). -/
def pyIntOfStr (s : Str) : Option ℤ :=
  match s with
  | [] => none
  | c :: rest =>
    if c = '-' then (parseDigits rest).map (fun n => -(n : ℤ))
    else if c = '+' then (parseDigits rest).map (fun n => (n : ℤ))
    else (parseDigits s).map (fun n => (n : ℤ))

/-- Unsigned decimal literal with optional fraction: `digits`,
`digits.digits`, `digits.` or `.digits`. -/
def parseFloatBody (s : Str) : Option ℚ :=
  let ip := s.takeWhile Char.isDigit
  let rest := s.dropWhile Char.isDigit
  match rest with
  | [] => if ip.isEmpty then none else some ((digitsToNat ip : ℚ))
  | c :: frac =>
    if c = '.' ∧ frac.all Char.isDigit ∧ (!ip.isEmpty || !frac.isEmpty) then
      some ((digitsToNat ip : ℚ) + (digitsToNat frac : ℚ) / (10 ^ frac.length))
    else none

/-- Python `float(s)` on the optional-sign decimal-literal fragment of its
grammar (the only shape this pipeline produces). -/
def pyFloatOfStr (s : Str) : Option ℚ :=
  match s with
  | [] => none
  | c :: rest =>
    if c = '-' then (parseFloatBody rest).map (fun q => -q)
    else if c = '+' then (parseFloatBody rest).map (fun q => q)
    else (parseFloatBody s).map (fun q => q)

/-- Python `int(x)` on a float: truncation toward zero. -/
def pyTrunc (q : ℚ) : ℤ := if 0 ≤ q then ⌊q⌋ else -⌊-q⌋

/-- Python `str.split()`: split on whitespace runs, never producing empty
tokens.  The first argument is the remaining text, the second the current
token accumulated in reverse. -/
def splitWsAux : Str → Str → List Str
  | [], cur => if cur.isEmpty then [] else [cur.reverse]
  | c :: rest, cur =>
    if c.isWhitespace then
      if cur.isEmpty then splitWsAux rest []
      else cur.reverse :: splitWsAux rest []
    else splitWsAux rest (c :: cur)

/-- Python `text.split()`. -/
def splitWs (s : Str) : List Str := splitWsAux s []

/-!
## Enhanced text parser (`parse_car_text_enhanced`, lines 457-547)
-/

/-- Search of regex `\$([0-9,]+)` inside one token: first `'$'` followed
by at least one `[0-9,]` character wins; the group is the maximal
`[0-9,]` run after that `'$'`. -/
def findDollarNum : Str → Option Str
  | [] => none
  | c :: rest =>
    if c = '$' then
      let run := rest.takeWhile isDigitComma
      if run.isEmpty then findDollarNum rest else some run
    else findDollarNum rest

/-- Price extraction: scan tokens in order; the first token in which the
price regex matches yields the captured group with commas stripped. -/
def extractPrice : List Str → Option Str
  | [] => none
  | t :: rest =>
    match findDollarNum t with
    | some run => some (run.filter (fun c => c ≠ ','))
    | none => extractPrice rest

/-- Year extraction: the first token that is all digits, has length 4 and
whose value lies in `[1990, currentYear]`. -/
def extractYear (cy : ℤ) : List Str → Option Str
  | [] => none
  | t :: rest =>
    if pyIsDigit t ∧ t.length = 4 ∧ 1990 ≤ (digitsToNat t : ℤ) ∧ (digitsToNat t : ℤ) ≤ cy
    then some t
    else extractYear cy rest

/-- The enhanced brand vocabulary (source lines 480-489). -/
def carBrands : List Str :=
  ["toyota", "honda", "ford", "chevrolet", "chevy", "nissan", "hyundai",
   "kia", "mazda", "subaru", "volkswagen", "vw", "bmw", "mercedes", "audi",
   "lexus", "acura", "infiniti", "volvo", "jaguar", "porsche", "ferrari",
   "lamborghini", "maserati", "bentley", "rolls-royce", "tesla", "lucid",
   "rivian", "cadillac", "lincoln", "buick", "gmc", "ram", "dodge",
   "chrysler", "jeep", "mitsubishi", "genesis", "alfa", "fiat", "mini",
   "land", "rover", "range", "saab", "pontiac", "oldsmobile", "saturn",
   "hummer", "scion", "isuzu", "suzuki", "daihatsu", "smart"].map String.toList

/-- `token.lower().replace('-', '').replace('_', '')`. -/
def normBrand (t : Str) : Str :=
  (pyLower t).filter (fun c => c ≠ '-' ∧ c ≠ '_')

/-- Make/model extraction: first token whose normalized form is a brand;
the make is that token title-cased, the model the next token (plus a
second one when it neither starts with `'$'` nor is all digits).  The
model is `none` exactly when the make is the last token. -/
def extractMakeModel : List Str → Option (Str × Option Str)
  | [] => none
  | t :: rest =>
    if normBrand t ∈ carBrands then
      some (pyTitle t,
        match rest with
        | [] => none
        | t1 :: rest2 =>
          match rest2 with
          | t2 :: _ =>
            if ¬ (t2.headD ' ' = '$') ∧ ¬ (pyIsDigit t2 = true)
            then some (pyTitle t1 ++ ' ' :: pyTitle t2)
            else some (pyTitle t1)
          | [] => some (pyTitle t1))
    else extractMakeModel rest

/-- `re.search` driver: try the pattern matcher at every suffix, leftmost
match wins. -/
def searchPat (tryAt : Str → Option Str) : Str → Option Str
  | [] => none
  | c :: rest =>
    match tryAt (c :: rest) with
    | some r => some r
    | none => searchPat tryAt rest

/-- Pattern `(\d+[,\d]*)\s*k\s*miles?` anchored at the current position.
The group `\d+[,\d]*` is the maximal `[0-9,]` run starting with a digit;
no backtracking is possible because the tail of the pattern can never
consume a `[0-9,]` character. -/
def tryP1 (s : Str) : Option Str :=
  match s with
  | [] => none
  | c :: _ =>
    if c.isDigit then
      let run := s.takeWhile isDigitComma
      let r2 := (s.dropWhile isDigitComma).dropWhile Char.isWhitespace
      match r2 with
      | 'k' :: r3 =>
        match r3.dropWhile Char.isWhitespace with
        | 'm' :: 'i' :: 'l' :: 'e' :: _ => some run
        | _ => none
      | _ => none
    else none

/-- Pattern `(\d+[,\d]*)\s*miles?` anchored at the current position. -/
def tryP2 (s : Str) : Option Str :=
  match s with
  | [] => none
  | c :: _ =>
    if c.isDigit then
      let run := s.takeWhile isDigitComma
      match (s.dropWhile isDigitComma).dropWhile Char.isWhitespace with
      | 'm' :: 'i' :: 'l' :: 'e' :: _ => some run
      | _ => none
    else none

/-- Pattern `(\d+[,\d]*)\s*k\b` anchored at the current position. -/
def tryP3 (s : Str) : Option Str :=
  match s with
  | [] => none
  | c :: _ =>
    if c.isDigit then
      let run := s.takeWhile isDigitComma
      match (s.dropWhile isDigitComma).dropWhile Char.isWhitespace with
      | 'k' :: r3 =>
        match r3 with
        | [] => some run
        | d :: _ => if isWordChar d then none else some run
      | _ => none
    else none

/-- Pattern `(\d+[,\d]*)\s*mi\b` anchored at the current position. -/
def tryP4 (s : Str) : Option Str :=
  match s with
  | [] => none
  | c :: _ =>
    if c.isDigit then
      let run := s.takeWhile isDigitComma
      match (s.dropWhile isDigitComma).dropWhile Char.isWhitespace with
      | 'm' :: 'i' :: r3 =>
        match r3 with
        | [] => some run
        | d :: _ => if isWordChar d then none else some run
      | _ => none
    else none

/-- The four mileage patterns tried in source order on the lower-cased
text; the result pairs the captured group with whether the whole match
(`match.group(0)`) contains the character `'k'`.  For patterns 1 and 3
the match contains the literal `k`; a match of pattern 2 or 4 consists of
digits, commas, whitespace and the letters `m i l e s`, so it can never
contain a `k`. -/
def firstMileageMatch (low : Str) : Option (Str × Bool) :=
  match searchPat tryP1 low with
  | some run => some (run, true)
  | none =>
    match searchPat tryP2 low with
    | some run => some (run, false)
    | none =>
      match searchPat tryP3 low with
      | some run => some (run, true)
      | none =>
        match searchPat tryP4 low with
        | some run => some (run, false)
        | none => none

/-- Mileage extraction (source lines 506-528): first pattern match wins;
the captured group (commas stripped) always parses, and is multiplied by
1000 exactly when the match contained `'k'` and the value is below
1000. -/
def extractMileage (low : Str) : Option ℕ :=
  match firstMileageMatch low with
  | none => none
  | some (run, hasK) =>
    let n := digitsToNat (run.filter (fun c => c ≠ ','))
    some (if hasK ∧ n < 1000 then n * 1000 else n)

/-- Location pattern `([A-Z][a-z]+,\s*[A-Z]{2})` anchored at the current
position; the group is the whole match. -/
def tryLoc1 (s : Str) : Option Str :=
  match s with
  | [] => none
  | c :: rest =>
    if c.isUpper then
      let low := rest.takeWhile Char.isLower
      if low.isEmpty then none
      else
        match rest.dropWhile Char.isLower with
        | ',' :: r2 =>
          let ws := r2.takeWhile Char.isWhitespace
          match r2.dropWhile Char.isWhitespace with
          | u1 :: u2 :: _ =>
            if u1.isUpper ∧ u2.isUpper
            then some (c :: low ++ ',' :: ws ++ [u1, u2])
            else none
          | _ => none
        | _ => none
    else none

/-- Location pattern `([A-Z][a-z]+\s+[A-Z][a-z]+,\s*[A-Z]{2})` anchored at
the current position. -/
def tryLoc2 (s : Str) : Option Str :=
  match s with
  | [] => none
  | c :: rest =>
    if c.isUpper then
      let low1 := rest.takeWhile Char.isLower
      if low1.isEmpty then none
      else
        let r1 := rest.dropWhile Char.isLower
        let ws1 := r1.takeWhile Char.isWhitespace
        if ws1.isEmpty then none
        else
          match r1.dropWhile Char.isWhitespace with
          | c2 :: r2 =>
            if c2.isUpper then
              let low2 := r2.takeWhile Char.isLower
              if low2.isEmpty then none
              else
                match r2.dropWhile Char.isLower with
                | ',' :: r3 =>
                  let ws2 := r3.takeWhile Char.isWhitespace
                  match r3.dropWhile Char.isWhitespace with
                  | u1 :: u2 :: _ =>
                    if u1.isUpper ∧ u2.isUpper
                    then some (c :: low1 ++ ws1 ++ c2 :: low2 ++ ',' :: ws2 ++ [u1, u2])
                    else none
                  | _ => none
                | _ => none
            else none
          | [] => none
    else none

/-- Location extraction (source lines 530-541): the two patterns in order
on the original-case text, default `"Unknown"`. -/
def extractLoc (text : Str) : Str :=
  match searchPat tryLoc1 text with
  | some g => g
  | none =>
    match searchPat tryLoc2 text with
    | some g => g
    | none => "Unknown".toList

/-- `parse_car_text_enhanced(text, url)` (source lines 457-547) with the
ambient current year made explicit.  Returns the 7-field record
`[price, year, make, model, mileage, location, url]`, or `none` when
price, year or make is missing (Python truthiness: `None` or `""`). -/
def parse_car_text_enhanced (cy : ℤ) (text url : Str) : Option (List Str) :=
  let tokens := splitWs text
  match extractPrice tokens, extractYear cy tokens, extractMakeModel tokens with
  | some p, some y, some (mk, md) =>
    if ¬ p.isEmpty ∧ ¬ y.isEmpty ∧ ¬ mk.isEmpty then
      some [p, y, mk, pyOr md "Unknown".toList,
            pyOr ((extractMileage (pyLower text)).map natToStr) "Unknown".toList,
            extractLoc text, url]
    else none
  | _, _, _ => none

/-!
## Valuation estimator (`get_market_pricing_estimate`, lines 627-661)
-/

/-- Brand factor (source lines 638-647): 1.08 for the premium set,
1.04 for the reliable set, else 1.0. -/
def brandFactor (make : Str) : ℚ :=
  if pyLower make ∈ ["bmw", "mercedes", "lexus", "audi"].map String.toList then 27/25
  else if pyLower make ∈ ["toyota", "honda", "mazda"].map String.toList then 26/25
  else 1

/-- Age depreciation factor (source line 650): `max(0.75, 1.0 - age*0.04)`. -/
def ageFactor (age : ℤ) : ℚ := max (3/4) (1 - (age : ℚ) * (1/25))

/-- `get_market_pricing_estimate(make, model, year, price)` with the
current year explicit.  The `model` argument is unused by the source.
Conversion failure of `year` or `price` yields the fixed fallback
triple. -/
def get_market_pricing_estimate (cy : ℤ) (make model year price : Str) : List ℤ :=
  match pyIntOfStr price, pyIntOfStr year with
  | some p, some y =>
    let ev : ℚ := (p : ℚ) * (28/25) * brandFactor make * ageFactor (cy - y)
    [pyTrunc (ev * (17/20)), pyTrunc (ev * (49/50)), pyTrunc (ev * (28/25))]
  | _, _ => [8000, 10000, 12000]

/-!
## Deal scorer (`calculate_deal_scores`, lines 663-730)
-/

/-- Mileage of a record (source lines 681-686): field 4 when present,
not `"Unknown"`, and parseable as an integer after stripping commas. -/
def mileageVal (car : List Str) : Option ℤ :=
  if 4 < car.length ∧ car.getD 4 [] ≠ "Unknown".toList then
    pyIntOfStr ((car.getD 4 []).filter (fun c => c ≠ ','))
  else none

/-- Condition label and factor (source lines 688-703).  Python's
`if mileage:` is falsy both for `None` and for the integer 0, so a zero
mileage lands in the `"Unknown"` branch. -/
def conditionOf (m : Option ℤ) : Str × ℚ :=
  match m with
  | some n =>
    if n ≠ 0 then
      if n < 50000 then ("Excellent".toList, 1)
      else if n < 80000 then ("Good".toList, 23/25)
      else if n < 120000 then ("Fair".toList, 17/20)
      else ("Poor".toList, 3/4)
    else ("Unknown".toList, 9/10)
  | none => ("Unknown".toList, 9/10)

/-- Deal-quality label from the ratio (source lines 711-718). -/
def dealQuality (ratio : ℚ) : Str :=
  if ratio > 5/4 then "Excellent".toList
  else if ratio > 11/10 then "Good".toList
  else if ratio > 19/20 then "Fair".toList
  else "Poor".toList

/-- Round-half-to-even to an integer, Python's `round` on an exact
value. -/
def rhe (q : ℚ) : ℤ :=
  if q - ⌊q⌋ < 1/2 then ⌊q⌋
  else if q - ⌊q⌋ > 1/2 then ⌊q⌋ + 1
  else if ⌊q⌋ % 2 = 0 then ⌊q⌋ else ⌊q⌋ + 1

/-- Python `round(q, 3)` on an exact value. -/
def round3 (q : ℚ) : ℚ := (rhe (q * 1000) : ℚ) / 1000

/-- The year used by the scorer (source line 673):
`int(car[1]) if car[1].isdigit() else 2010`. -/
def scoreYear (car : List Str) : ℤ :=
  if pyIsDigit (car.getD 1 []) then (digitsToNat (car.getD 1 []) : ℤ) else 2010

/-- Everything the scorer computes for one record, up to the exact
(unrounded) ratio: `none` models a skipped record (fewer than 4 fields,
price that does not parse, or the `ZeroDivisionError` at `ratio =
adjusted_market / price` when the price is zero).  Returns
`(ratio, condition, conditionFactor, marketPrices)`. -/
def scoreCore (cy : ℤ) (car : List Str) : Option (ℚ × Str × ℚ × List ℤ) :=
  if car.length < 4 then none
  else
    match pyFloatOfStr (car.getD 0 []) with
    | none => none
    | some price =>
      let market := get_market_pricing_estimate cy (car.getD 2 []) (car.getD 3 [])
        (intToStr (scoreYear car)) (intToStr (pyTrunc price))
      let cond := conditionOf (mileageVal car)
      let avgMarket : ℚ := ((market.foldr (fun i a => (i : ℚ) + a) 0)) / (market.length : ℚ)
      let adjustedMarket := avgMarket * cond.2
      if price = 0 then none
      else some (adjustedMarket / price, cond.1, cond.2, market)

/-- The exact (pre-rounding) deal ratio of one record, i.e. the value
`adjusted_market / price` computed at source line 708. -/
def dealRatioExact (cy : ℤ) (car : List Str) : Option ℚ :=
  (scoreCore cy car).map (fun r => r.1)

/-- A scored entry: the Python heterogeneous list
`[round(ratio, 3), condition, deal_quality] + car + [market_prices]`. -/
structure ScoredRec where
  ratio : ℚ
  condition : Str
  quality : Str
  fields : List Str
  market : List ℤ
deriving DecidableEq, Repr

/-- Score one record (source lines 667-726): `none` when the record is
skipped by `continue` or its exception is caught. -/
def scoreRecord (cy : ℤ) (car : List Str) : Option ScoredRec :=
  (scoreCore cy car).map (fun r =>
    { ratio := round3 r.1, condition := r.2.1, quality := dealQuality r.1,
      fields := car, market := r.2.2.2 })

/-- Stable descending insertion: place `x` before the first element whose
key is not larger, so that `x` precedes every equal-key element inserted
earlier (which came later in the input). -/
def insertDesc (x : ScoredRec) : List ScoredRec → List ScoredRec
  | [] => [x]
  | h :: t => if x.ratio < h.ratio then h :: insertDesc x t else x :: h :: t

/-- Stable sort by descending ratio.  Python's `list.sort(key=...,
reverse=True)` is the unique stable descending sort, and a stable sort is
determined by its ordering and stability, so insertion sort embeds it
exactly. -/
def sortByRatioDesc : List ScoredRec → List ScoredRec
  | [] => []
  | x :: xs => insertDesc x (sortByRatioDesc xs)

/-- `calculate_deal_scores(car_listings)` (source lines 663-730): score
each record, dropping failures, then stable-sort by descending ratio. -/
def calculate_deal_scores (cy : ℤ) (cars : List (List Str)) : List ScoredRec :=
  sortByRatioDesc (cars.filterMap (scoreRecord cy))

/-!
## Pagination collector: scroll loop (lines 307-364) and
content-signature dedup (lines 423-431)

The browser collaborator is abstracted as `harvest : ℕ → Option (List ℕ)`:
for each scroll index it either raises (`none`, the `except` branch that
logs and `continue`s) or yields the set of marketplace hrefs currently
visible.  Listing references are opaque, modelled as naturals; the
accumulator keeps first-insertion order and set semantics.
-/

/-- Insert a reference into the accumulator set. -/
def addRef (l : List ℕ) (x : ℕ) : List ℕ := if x ∈ l then l else l ++ [x]

/-- `all_listings.update(current_listings)`. -/
def unionRefs (l : List ℕ) (refs : List ℕ) : List ℕ := refs.foldl addRef l

/-- State of the scrolling loop: accumulator, `previous_count`,
`no_new_count`, and the number of scroll iterations executed. -/
structure ScrollState where
  acc : List ℕ
  prevCount : ℕ
  noNew : ℕ
  iters : ℕ
deriving DecidableEq, Repr

/-- Initial state (source lines 308-310). -/
def initScroll : ScrollState := { acc := [], prevCount := 0, noNew := 0, iters := 0 }

/-- The scroll loop (source lines 312-364), by recursion on the remaining
iteration budget.  An iteration that raises leaves the entire state
untouched (the counters included) and only consumes budget; a successful
iteration unions the harvest into the accumulator, increments the stall
counter on an unchanged count (breaking at 3) or resets it, and breaks
once the accumulator reaches `maxListings`. -/
def scrollRun (harvest : ℕ → Option (List ℕ)) (maxListings : ℕ) :
    ℕ → ScrollState → ScrollState
  | 0, st => st
  | n + 1, st =>
    match harvest st.iters with
    | none => scrollRun harvest maxListings n { st with iters := st.iters + 1 }
    | some refs =>
      let acc' := unionRefs st.acc refs
      let cc := acc'.length
      if cc = st.prevCount then
        if st.noNew + 1 ≥ 3 then
          { acc := acc', prevCount := st.prevCount, noNew := st.noNew + 1,
            iters := st.iters + 1 }
        else if cc ≥ maxListings then
          { acc := acc', prevCount := cc, noNew := st.noNew + 1, iters := st.iters + 1 }
        else
          scrollRun harvest maxListings n
            { acc := acc', prevCount := cc, noNew := st.noNew + 1, iters := st.iters + 1 }
      else
        if cc ≥ maxListings then
          { acc := acc', prevCount := cc, noNew := 0, iters := st.iters + 1 }
        else
          scrollRun harvest maxListings n
            { acc := acc', prevCount := cc, noNew := 0, iters := st.iters + 1 }

/-- Run the whole scroll stage with budget `scrollCount`. -/
def scrollLoop (harvest : ℕ → Option (List ℕ)) (maxListings scrollCount : ℕ) :
    ScrollState :=
  scrollRun harvest maxListings scrollCount initScroll

/-- ContentSignature (source line 426):
`f"{car[0]}_{car[1]}_{car[2]}_{car[3]}_{car[4]}"`. -/
def carSig (car : List Str) : Str :=
  car.getD 0 [] ++ '_' :: car.getD 1 [] ++ '_' :: car.getD 2 []
    ++ '_' :: car.getD 3 [] ++ '_' :: car.getD 4 []

/-- The extraction-stage dedup (source lines 425-431): keep a record only
if its signature has not been seen, first occurrence wins. -/
def dedupBySig : List (List Str) → List Str → List (List Str)
  | [], _ => []
  | c :: rest, seen =>
    if carSig c ∈ seen then dedupBySig rest seen
    else c :: dedupBySig rest (carSig c :: seen)

/-- Dedup of the parsed candidate records of one run. -/
def dedupRecords (l : List (List Str)) : List (List Str) := dedupBySig l []

/-!
## Lemmas about the stable descending sort
-/

theorem insertDesc_perm (x : ScoredRec) (l : List ScoredRec) :
    List.Perm (insertDesc x l) (x :: l) := by
  induction l with
  | nil => exact List.Perm.refl _
  | cons h t ih =>
    simp only [insertDesc]
    split
    · exact (ih.cons h).trans (List.Perm.swap x h t)
    · exact List.Perm.refl _

theorem insertDesc_pairwise (x : ScoredRec) (l : List ScoredRec)
    (hl : l.Pairwise (fun a b => b.ratio ≤ a.ratio)) :
    (insertDesc x l).Pairwise (fun a b => b.ratio ≤ a.ratio) := by
  induction l with
  | nil => simp [insertDesc]
  | cons h t ih =>
    rw [List.pairwise_cons] at hl
    simp only [insertDesc]
    split
    · rename_i hx
      rw [List.pairwise_cons]
      refine ⟨fun y hy => ?_, ih hl.2⟩
      rcases List.mem_cons.mp (((insertDesc_perm x t).mem_iff).mp hy) with rfl | hyt
      · exact le_of_lt hx
      · exact hl.1 y hyt
    · rename_i hx
      rw [List.pairwise_cons]
      refine ⟨fun y hy => ?_, List.pairwise_cons.mpr hl⟩
      rcases List.mem_cons.mp hy with rfl | hyt
      · exact le_of_not_lt hx
      · exact le_trans (hl.1 y hyt) (le_of_not_lt hx)

theorem insertDesc_filter_ratio (q : ℚ) (x : ScoredRec) (l : List ScoredRec) :
    (insertDesc x l).filter (fun r => decide (r.ratio = q)) =
      if x.ratio = q then x :: l.filter (fun r => decide (r.ratio = q))
      else l.filter (fun r => decide (r.ratio = q)) := by
  induction l with
  | nil => by_cases hxq : x.ratio = q <;> simp [insertDesc, List.filter_cons, hxq]
  | cons h t ih =>
    simp only [insertDesc]
    split
    · rename_i hx
      by_cases hxq : x.ratio = q
      · have hhq : ¬ (h.ratio = q) := by
          intro hh
          rw [hh, ← hxq] at hx
          exact lt_irrefl _ hx
        simp [List.filter_cons, hxq, hhq, ih]
      · by_cases hhq : h.ratio = q <;> simp [List.filter_cons, hxq, hhq, ih]
    · by_cases hxq : x.ratio = q <;>
        by_cases hhq : h.ratio = q <;>
        simp [List.filter_cons, hxq, hhq]

theorem sortByRatioDesc_pairwise (l : List ScoredRec) :
    (sortByRatioDesc l).Pairwise (fun a b => b.ratio ≤ a.ratio) := by
  induction l with
  | nil => simp [sortByRatioDesc]
  | cons x xs ih => exact insertDesc_pairwise x _ ih

theorem sortByRatioDesc_filter_ratio (q : ℚ) (l : List ScoredRec) :
    (sortByRatioDesc l).filter (fun r => decide (r.ratio = q)) =
      l.filter (fun r => decide (r.ratio = q)) := by
  induction l with
  | nil => rfl
  | cons x xs ih =>
    simp only [sortByRatioDesc]
    rw [insertDesc_filter_ratio]
    by_cases hxq : x.ratio = q <;> simp [List.filter_cons, hxq, ih]

theorem sortByRatioDesc_perm (l : List ScoredRec) :
    List.Perm (sortByRatioDesc l) l := by
  induction l with
  | nil => exact List.Perm.refl _
  | cons x xs ih => exact (insertDesc_perm x _).trans (ih.cons x)

theorem filterMap_filter_isSome {α β : Type} (f : α → Option β) (l : List α) :
    (l.filter (fun r => (f r).isSome)).filterMap f = l.filterMap f := by
  induction l with
  | nil => rfl
  | cons x xs ih =>
    cases hfx : f x with
    | none => simp [List.filter_cons, List.filterMap_cons, hfx, ih]
    | some b => simp [List.filter_cons, List.filterMap_cons, hfx, ih]

/-!
## Claims about the deal scorer
-/

/-- C3: for every input list, `calculate_deal_scores` returns the scored
records sorted in descending order of deal ratio, and among records of
equal ratio it preserves the relative order of the (scored) input
sequence — a stable descending sort. -/
theorem claim_C3_output_ordering (cy : ℤ) (l : List (List Str)) :
    (calculate_deal_scores cy l).Pairwise (fun a b => b.ratio ≤ a.ratio) ∧
    ∀ q : ℚ, (calculate_deal_scores cy l).filter (fun r => decide (r.ratio = q)) =
      (l.filterMap (scoreRecord cy)).filter (fun r => decide (r.ratio = q)) := by
  exact ⟨sortByRatioDesc_pairwise _, fun q => sortByRatioDesc_filter_ratio q _⟩

/-- C9: the scorer is total (modelled by `scoreRecord` returning an
`Option` and `calculate_deal_scores` being a total function); its output
is exactly the per-record scores of the input (each entry derived from
one input record), records whose processing fails are dropped without
affecting any other record (removing them from the input leaves the
output unchanged), and a record with fewer than 4 fields, a non-numeric
price, or a zero price is dropped. -/
theorem claim_C9_scorer_robustness (cy : ℤ) (l : List (List Str)) :
    List.Perm (calculate_deal_scores cy l) (l.filterMap (scoreRecord cy)) ∧
    calculate_deal_scores cy l =
      calculate_deal_scores cy (l.filter (fun r => (scoreRecord cy r).isSome)) ∧
    scoreRecord cy (["1", "2", "3"].map String.toList) = none ∧
    scoreRecord cy (["abc", "2015", "Honda", "Civic"].map String.toList) = none ∧
    scoreRecord cy (["0", "2015", "Honda", "Civic"].map String.toList) = none := by
  refine ⟨sortByRatioDesc_perm _, ?_, rfl, rfl, rfl⟩
  unfold calculate_deal_scores
  rw [filterMap_filter_isSome]

/-- C2 counterexample: a record whose mileage field is the numeric string
`"0"` is present and numeric and below 50000, yet the scorer classifies
it `"Unknown"` with factor 0.90 rather than `"Excellent"` with factor
1.0, because Python's `if mileage:` is falsy at 0. -/
theorem claim_C2_counterexample :
    mileageVal (["10000", "2015", "Honda", "Civic", "0", "L", "u"].map String.toList)
      = some 0 ∧
    conditionOf (mileageVal
      (["10000", "2015", "Honda", "Civic", "0", "L", "u"].map String.toList))
      = ("Unknown".toList, 9/10) ∧
    ("Unknown".toList, (9/10 : ℚ)) ≠ ("Excellent".toList, (1 : ℚ)) := by
  exact ⟨rfl, rfl, by decide⟩

/-- C2 as amended: if the mileage field is present, numeric and nonzero,
the condition label and factor are determined solely by the strict
thresholds (below 50000 Excellent/1.0, below 80000 Good/0.92, below
120000 Fair/0.85, at or above 120000 Poor/0.75, with exact 50000/80000/
120000 falling into the next band); a missing, unparseable or zero
mileage gives Unknown/0.90. -/
theorem claim_C2_amended_mileage_condition :
    (∀ car (n : ℤ), mileageVal car = some n → n ≠ 0 →
      ((n < 50000 → conditionOf (mileageVal car) = ("Excellent".toList, 1)) ∧
       (50000 ≤ n → n < 80000 → conditionOf (mileageVal car) = ("Good".toList, 23/25)) ∧
       (80000 ≤ n → n < 120000 → conditionOf (mileageVal car) = ("Fair".toList, 17/20)) ∧
       (120000 ≤ n → conditionOf (mileageVal car) = ("Poor".toList, 3/4)))) ∧
    (∀ car, mileageVal car = none ∨ mileageVal car = some 0 →
      conditionOf (mileageVal car) = ("Unknown".toList, 9/10)) ∧
    conditionOf (mileageVal
        (["1000", "2015", "Honda", "Civic", "50000", "L", "u"].map String.toList))
      = ("Good".toList, 23/25) ∧
    conditionOf (mileageVal
        (["1000", "2015", "Honda", "Civic", "80000", "L", "u"].map String.toList))
      = ("Fair".toList, 17/20) ∧
    conditionOf (mileageVal
        (["1000", "2015", "Honda", "Civic", "120000", "L", "u"].map String.toList))
      = ("Poor".toList, 3/4) := by
  refine ⟨?_, ?_, rfl, rfl, rfl⟩
  · intro car n h hn
    rw [h]
    refine ⟨fun h1 => ?_, fun h1 h2 => ?_, fun h1 h2 => ?_, fun h1 => ?_⟩
    · simp [conditionOf, hn, h1]
    · have h3 : ¬ n < 50000 := by omega
      simp [conditionOf, hn, h2, h3]
    · have h3 : ¬ n < 50000 := by omega
      have h4 : ¬ n < 80000 := by omega
      simp [conditionOf, hn, h2, h3, h4]
    · have h3 : ¬ n < 50000 := by omega
      have h4 : ¬ n < 80000 := by omega
      have h5 : ¬ n < 120000 := by omega
      simp [conditionOf, hn, h3, h4, h5]
  · intro car h
    rcases h with h | h <;> rw [h] <;> simp [conditionOf]

/-- C2 witness: the amended theorem applied to a concrete record with
mileage 49999. -/
theorem claim_C2_amended_witness :
    conditionOf (mileageVal
        (["1000", "2015", "Honda", "Civic", "49999", "L", "u"].map String.toList))
      = ("Excellent".toList, 1) :=
  (claim_C2_amended_mileage_condition.1
    (["1000", "2015", "Honda", "Civic", "49999", "L", "u"].map String.toList)
    49999 (by decide) (by decide)).1 (by decide)

/-!
## Claims about the content-signature dedup
-/

/-- The five content fields of a candidate record. -/
def fiveFields (car : List Str) : Str × Str × Str × Str × Str :=
  (car.getD 0 [], car.getD 1 [], car.getD 2 [], car.getD 3 [], car.getD 4 [])

theorem carSig_congr {a b : List Str} (h : fiveFields a = fiveFields b) :
    carSig a = carSig b := by
  simp only [fiveFields, Prod.mk.injEq] at h
  obtain ⟨h0, h1, h2, h3, h4⟩ := h
  unfold carSig
  rw [h0, h1, h2, h3, h4]

theorem dedupBySig_filter_of_mem (l : List (List Str)) (seen : List Str) (s : Str)
    (hs : s ∈ seen) :
    (dedupBySig l seen).filter (fun c => decide (carSig c = s)) = [] := by
  induction l generalizing seen with
  | nil => rfl
  | cons c rest ih =>
    simp only [dedupBySig]
    split
    · exact ih seen hs
    · rename_i hc
      have hcs : ¬ (carSig c = s) := fun h => hc (h ▸ hs)
      simp only [List.filter_cons, hcs, decide_eq_false_iff_not, if_neg,
        Bool.false_eq_true, if_false]
      exact ih (carSig c :: seen) (List.mem_cons_of_mem _ hs)

theorem dedupBySig_filter_of_not_mem (l : List (List Str)) (seen : List Str) (s : Str)
    (hs : s ∉ seen) :
    (dedupBySig l seen).filter (fun c => decide (carSig c = s)) =
      (l.filter (fun c => decide (carSig c = s))).take 1 := by
  induction l generalizing seen with
  | nil => rfl
  | cons c rest ih =>
    simp only [dedupBySig]
    by_cases hcs : carSig c = s
    · rw [if_neg (fun h => hs (hcs ▸ h))]
      have hA := dedupBySig_filter_of_mem rest (carSig c :: seen) s
        (hcs ▸ List.mem_cons_self (carSig c) seen)
      rw [hcs] at hA
      simp [List.filter_cons, hcs, hA]
    · split
      · rw [ih seen hs]
        simp [List.filter_cons, hcs]
      · simp only [List.filter_cons, hcs, decide_eq_false_iff_not, if_neg,
          Bool.false_eq_true, if_false]
        exact ih (carSig c :: seen) (by
          intro h
          rcases List.mem_cons.mp h with h' | h'
          · exact hcs h'.symm
          · exact hs h')

/-- C8: if two candidate records of the extraction stage agree on all
five of price, year, make, model and mileage, then — whatever their
source references — the deduplicated output contains exactly one entry
with their content signature, namely the first-seen one. -/
theorem claim_C8_dedup_idempotence (l : List (List Str)) (r₁ r₂ : List Str)
    (h1 : r₁ ∈ l) (h2 : r₂ ∈ l) (hf : fiveFields r₁ = fiveFields r₂) :
    carSig r₂ = carSig r₁ ∧
    ((dedupRecords l).filter (fun c => decide (carSig c = carSig r₁))).length = 1 ∧
    (dedupRecords l).filter (fun c => decide (carSig c = carSig r₁)) =
      (l.filter (fun c => decide (carSig c = carSig r₁))).take 1 := by
  have hsig : carSig r₂ = carSig r₁ := carSig_congr hf.symm
  have hfil := dedupBySig_filter_of_not_mem l [] (carSig r₁) (List.not_mem_nil _)
  refine ⟨hsig, ?_, hfil⟩
  unfold dedupRecords
  rw [hfil]
  have hmem : r₁ ∈ l.filter (fun c => decide (carSig c = carSig r₁)) :=
    List.mem_filter.mpr ⟨h1, by simp⟩
  cases hl : l.filter (fun c => decide (carSig c = carSig r₁)) with
  | nil => rw [hl] at hmem; exact absurd hmem (List.not_mem_nil _)
  | cons a t => rfl

/-- C8 witness: two records identical in the five content fields and
differing in location and source URL are collapsed to the first one. -/
theorem claim_C8_dedup_witness :
    ((dedupRecords
        [["14500", "2015", "Honda", "Civic", "78000", "L1", "u1"].map String.toList,
         ["14500", "2015", "Honda", "Civic", "78000", "L2", "u2"].map String.toList]).filter
      (fun c => decide (carSig c =
        carSig (["14500", "2015", "Honda", "Civic", "78000", "L1", "u1"].map
          String.toList)))).length = 1 :=
  (claim_C8_dedup_idempotence
    [["14500", "2015", "Honda", "Civic", "78000", "L1", "u1"].map String.toList,
     ["14500", "2015", "Honda", "Civic", "78000", "L2", "u2"].map String.toList]
    (["14500", "2015", "Honda", "Civic", "78000", "L1", "u1"].map String.toList)
    (["14500", "2015", "Honda", "Civic", "78000", "L2", "u2"].map String.toList)
    (by decide) (by decide) (by decide)).2.1

/-!
## Claims about the scroll loop
-/

theorem unionRefs_of_subset (acc : List ℕ) (refs : List ℕ)
    (h : ∀ x ∈ refs, x ∈ acc) : unionRefs acc refs = acc := by
  induction refs generalizing acc with
  | nil => rfl
  | cons r rs ih =>
    have hr : r ∈ acc := h r (List.mem_cons_self _ _)
    have ha : addRef acc r = acc := by simp [addRef, hr]
    simp only [unionRefs, List.foldl_cons] at *
    rw [ha]
    exact ih acc (fun x hx => h x (List.mem_cons_of_mem _ hx))

theorem scrollRun_iters_le (harvest : ℕ → Option (List ℕ)) (maxL : ℕ) :
    ∀ (n : ℕ) (st : ScrollState),
      (scrollRun harvest maxL n st).iters ≤ st.iters + n := by
  intro n
  induction n with
  | zero => intro st; simp [scrollRun]
  | succ n ih =>
    intro st
    rcases hh : harvest st.iters with _ | refs
    · simp only [scrollRun, hh]
      refine le_trans (ih _) ?_
      show st.iters + 1 + n ≤ st.iters + (n + 1)
      omega
    · simp only [scrollRun, hh]
      split
      · split
        · show st.iters + 1 ≤ st.iters + (n + 1)
          omega
        · split
          · show st.iters + 1 ≤ st.iters + (n + 1)
            omega
          · refine le_trans (ih _) ?_
            show st.iters + 1 + n ≤ st.iters + (n + 1)
            omega
      · split
        · show st.iters + 1 ≤ st.iters + (n + 1)
          omega
        · refine le_trans (ih _) ?_
          show st.iters + 1 + n ≤ st.iters + (n + 1)
          omega

/-- One successful iteration whose harvest adds nothing, below the stall
limit and the listing cap: the stall counter advances by one. -/
theorem scrollRun_stall_step (harvest : ℕ → Option (List ℕ)) (maxL n : ℕ)
    (st : ScrollState) (refs : List ℕ)
    (hh : harvest st.iters = some refs) (hsub : ∀ x ∈ refs, x ∈ st.acc)
    (hprev : st.prevCount = st.acc.length) (hn3 : st.noNew + 1 < 3)
    (hcap : st.acc.length < maxL) :
    scrollRun harvest maxL (n + 1) st =
      scrollRun harvest maxL n
        { acc := st.acc, prevCount := st.acc.length, noNew := st.noNew + 1,
          iters := st.iters + 1 } := by
  have hu : unionRefs st.acc refs = st.acc := unionRefs_of_subset st.acc refs hsub
  simp only [scrollRun, hh, hu]
  rw [if_pos hprev.symm, if_neg (by omega), if_neg (by omega)]

/-- The third consecutive no-growth iteration: the loop breaks. -/
theorem scrollRun_stall_break (harvest : ℕ → Option (List ℕ)) (maxL n : ℕ)
    (st : ScrollState) (refs : List ℕ)
    (hh : harvest st.iters = some refs) (hsub : ∀ x ∈ refs, x ∈ st.acc)
    (hprev : st.prevCount = st.acc.length) (hn3 : 3 ≤ st.noNew + 1) :
    scrollRun harvest maxL (n + 1) st =
      { acc := st.acc, prevCount := st.prevCount, noNew := st.noNew + 1,
        iters := st.iters + 1 } := by
  have hu : unionRefs st.acc refs = st.acc := unionRefs_of_subset st.acc refs hsub
  simp only [scrollRun, hh, hu]
  rw [if_pos hprev.symm, if_pos (by omega)]

/-- Three consecutive successful no-growth iterations from a rested state
stop the loop after exactly the third stall. -/
theorem scrollRun_three_stalls (harvest : ℕ → Option (List ℕ)) (maxL m : ℕ)
    (st : ScrollState)
    (h0 : st.noNew = 0) (hprev : st.prevCount = st.acc.length)
    (hcap : st.acc.length < maxL)
    (hsucc : ∀ k, ∃ refs, harvest k = some refs ∧ ∀ x ∈ refs, x ∈ st.acc) :
    scrollRun harvest maxL (m + 3) st =
      { acc := st.acc, prevCount := st.acc.length, noNew := 3,
        iters := st.iters + 3 } := by
  obtain ⟨r0, hr0, hs0⟩ := hsucc st.iters
  obtain ⟨r1, hr1, hs1⟩ := hsucc (st.iters + 1)
  obtain ⟨r2, hr2, hs2⟩ := hsucc (st.iters + 2)
  have e1 := scrollRun_stall_step harvest maxL (m + 2) st r0 hr0 hs0 hprev
    (by omega) hcap
  rw [show m + 3 = (m + 2) + 1 by omega, e1]
  have e2 := scrollRun_stall_step harvest maxL (m + 1)
    { acc := st.acc, prevCount := st.acc.length, noNew := st.noNew + 1,
      iters := st.iters + 1 } r1 hr1 hs1 rfl
    (by show st.noNew + 1 + 1 < 3; omega) hcap
  rw [show m + 2 = (m + 1) + 1 by omega, e2]
  have e3 := scrollRun_stall_break harvest maxL m
    { acc := st.acc, prevCount := st.acc.length, noNew := st.noNew + 1 + 1,
      iters := st.iters + 1 + 1 } r2 hr2 hs2 rfl
    (by show 3 ≤ st.noNew + 1 + 1 + 1; omega)
  rw [e3]
  simp only [h0, ScrollState.mk.injEq]

/-- C6 counterexample: with a collaborator that raises on every
iteration, every iteration leaves the accumulator size unchanged, yet the
loop does not stop after the third such iteration — error iterations
bypass the stall counter entirely (`except: continue`), so the loop runs
its whole 10-iteration budget. -/
theorem claim_C6_counterexample :
    (scrollLoop (fun _ => none) 100 10).iters = 10 ∧
    ¬ (scrollLoop (fun _ => none) 100 10).iters = 3 := by
  exact ⟨rfl, by decide⟩

/-- C6 as amended: an iteration that raises leaves the stall counter
untouched (it is neither a stall nor a reset) and only consumes budget;
the loop never exceeds the scroll-iteration budget; three consecutive
error-free iterations that leave the accumulator unchanged, starting from
a rested state below the cap, stop the loop after exactly the third; and
reaching the max-listing cap stops it immediately. -/
theorem claim_C6_amended_collector_stop :
    (∀ (harvest : ℕ → Option (List ℕ)) (maxL n : ℕ) (st : ScrollState),
      (scrollRun harvest maxL n st).iters ≤ st.iters + n) ∧
    (∀ (harvest : ℕ → Option (List ℕ)) (maxL m : ℕ) (st : ScrollState),
      st.noNew = 0 → st.prevCount = st.acc.length → st.acc.length < maxL →
      (∀ k, ∃ refs, harvest k = some refs ∧ ∀ x ∈ refs, x ∈ st.acc) →
      scrollRun harvest maxL (m + 3) st =
        { acc := st.acc, prevCount := st.acc.length, noNew := 3,
          iters := st.iters + 3 }) ∧
    (scrollLoop (fun _ => some [0, 1, 2]) 1 10).iters = 1 := by
  exact ⟨fun harvest maxL n st => scrollRun_iters_le harvest maxL n st,
    fun harvest maxL m st h0 hprev hcap hsucc =>
      scrollRun_three_stalls harvest maxL m st h0 hprev hcap hsucc,
    rfl⟩

/-- C6 witness: a collaborator that always succeeds and never grows the
accumulator stops collection after exactly 3 iterations of a
10-iteration budget. -/
theorem claim_C6_amended_witness :
    scrollRun (fun _ => some []) 5 (7 + 3) initScroll =
      { acc := [], prevCount := 0, noNew := 3, iters := 3 } :=
  claim_C6_amended_collector_stop.2.1 (fun _ => some []) 5 7 initScroll
    rfl rfl (by decide) (fun k => ⟨[], rfl, by simp⟩)

/-!
## The decimal rendering round-trips through the integer parser
-/

theorem digitChar_isDigit {d : ℕ} (h : d < 10) : (digitChar d).isDigit = true := by
  interval_cases d <;> rfl

theorem charVal_digitChar {d : ℕ} (h : d < 10) : charVal (digitChar d) = d := by
  interval_cases d <;> rfl

theorem digitsToNat_append (s : Str) (c : Char) :
    digitsToNat (s ++ [c]) = 10 * digitsToNat s + charVal c := by
  simp [digitsToNat, List.foldl_append]
  ring

theorem natToStrAux_spec :
    ∀ fuel n, n < fuel →
      (natToStrAux fuel n).all Char.isDigit = true ∧ natToStrAux fuel n ≠ [] ∧
        digitsToNat (natToStrAux fuel n) = n := by
  intro fuel
  induction fuel with
  | zero => intro n h; omega
  | succ fuel ih =>
    intro n h
    by_cases h10 : n < 10
    · refine ⟨?_, ?_, ?_⟩ <;> simp [natToStrAux, h10, digitsToNat,
        digitChar_isDigit h10, charVal_digitChar h10]
    · have hlt : n / 10 < n := Nat.div_lt_self (by omega) (by omega)
      have hd : n / 10 < fuel := by omega
      obtain ⟨ha, hne, hv⟩ := ih (n / 10) hd
      have hm : n % 10 < 10 := Nat.mod_lt _ (by omega)
      refine ⟨?_, ?_, ?_⟩
      · simp [natToStrAux, h10, List.all_append, ha, digitChar_isDigit hm]
      · simp [natToStrAux, h10]
      · rw [show natToStrAux (fuel + 1) n =
            natToStrAux fuel (n / 10) ++ [digitChar (n % 10)] by
              simp [natToStrAux, h10],
          digitsToNat_append, hv, charVal_digitChar hm]
        omega

theorem parseDigits_natToStr (n : ℕ) : parseDigits (natToStr n) = some n := by
  obtain ⟨ha, hne, hv⟩ := natToStrAux_spec (n + 1) n (by omega)
  have ha' : (natToStr n).all Char.isDigit = true := ha
  have hne' : natToStr n ≠ [] := hne
  have hv' : digitsToNat (natToStr n) = n := hv
  have h1 : (natToStr n).isEmpty = false := by
    cases hc : natToStr n with
    | nil => exact absurd hc hne'
    | cons c rest => rfl
  rw [parseDigits, if_pos (by rw [h1, ha']; rfl), hv']

theorem natToStr_head_isDigit (n : ℕ) :
    ∃ c rest, natToStr n = c :: rest ∧ c.isDigit = true := by
  obtain ⟨ha, hne, _⟩ := natToStrAux_spec (n + 1) n (by omega)
  cases hc : natToStr n with
  | nil => exact absurd hc hne
  | cons c rest =>
    refine ⟨c, rest, rfl, ?_⟩
    have := List.all_eq_true.mp ha c (by rw [show natToStrAux (n + 1) n = natToStr n from rfl, hc]; exact List.mem_cons_self _ _)
    exact this

theorem pyIntOfStr_intToStr (i : ℤ) : pyIntOfStr (intToStr i) = some i := by
  by_cases hi : i < 0
  · rw [intToStr, if_pos hi, pyIntOfStr]
    rw [if_pos rfl, parseDigits_natToStr]
    simp [Int.toNat_of_nonneg (by omega : (0:ℤ) ≤ -i)]
  · obtain ⟨c, rest, hcr, hcd⟩ := natToStr_head_isDigit i.toNat
    have hcm : ¬ (c = '-') := by
      intro h; rw [h] at hcd; exact absurd hcd (by decide)
    have hcp : ¬ (c = '+') := by
      intro h; rw [h] at hcd; exact absurd hcd (by decide)
    rw [intToStr, if_neg hi, hcr, pyIntOfStr, if_neg hcm, if_neg hcp, ← hcr,
      parseDigits_natToStr]
    simp [Int.toNat_of_nonneg (by omega : (0:ℤ) ≤ i)]

/-!
## Claims about the valuation estimator
-/

theorem pyTrunc_lt_premium {z : ℚ} (hz : 25/2 ≤ z) :
    pyTrunc z < pyTrunc ((27/25) * z) := by
  have hz0 : (0 : ℚ) ≤ z := by linarith
  have hz0' : (0 : ℚ) ≤ (27/25) * z := by linarith
  rw [pyTrunc, if_pos hz0, pyTrunc, if_pos hz0']
  have h2 : (⌊z⌋ : ℚ) ≤ z := Int.floor_le z
  have h3 : ⌊z⌋ + 1 ≤ ⌊(27/25) * z⌋ := Int.le_floor.mpr (by push_cast; nlinarith)
  omega

/-- C7 counterexample: at listing price 1 (a numeric price), the premium
make `"bmw"` and a make in neither brand set yield triples `[1, 1, 1]`
and `[0, 1, 1]`: the second and third components are not strictly
greater, so the claimed componentwise strict inequality fails. -/
theorem claim_C7_counterexample :
    get_market_pricing_estimate 2025 "bmw".toList "m".toList
        "2025".toList "1".toList = [1, 1, 1] ∧
    get_market_pricing_estimate 2025 "zzz".toList "m".toList
        "2025".toList "1".toList = [0, 1, 1] ∧
    ¬ List.Forall₂ (fun a b => a < b)
      (get_market_pricing_estimate 2025 "zzz".toList "m".toList
        "2025".toList "1".toList)
      (get_market_pricing_estimate 2025 "bmw".toList "m".toList
        "2025".toList "1".toList) := by
  have hp1 : pyIntOfStr "1".toList = some 1 := by decide
  have hy1 : pyIntOfStr "2025".toList = some 2025 := by decide
  have hb : brandFactor "bmw".toList = 27/25 := by
    unfold brandFactor; rw [if_pos (by decide)]
  have hbz : brandFactor "zzz".toList = 1 := by
    unfold brandFactor; rw [if_neg (by decide), if_neg (by decide)]
  have haf : ageFactor (2025 - 2025) = 1 := by unfold ageFactor; norm_num
  have e1 : get_market_pricing_estimate 2025 "bmw".toList "m".toList
      "2025".toList "1".toList = [1, 1, 1] := by
    simp only [get_market_pricing_estimate, hp1, hy1, hb, haf]
    norm_num [pyTrunc]
  have e2 : get_market_pricing_estimate 2025 "zzz".toList "m".toList
      "2025".toList "1".toList = [0, 1, 1] := by
    simp only [get_market_pricing_estimate, hp1, hy1, hbz, haf]
    norm_num [pyTrunc]
  refine ⟨e1, e2, ?_⟩
  rw [e1, e2]
  intro h
  rcases h with _ | ⟨h1, _ | ⟨h2, _⟩⟩
  exact absurd h2 (by decide)

/-- C7 as amended: the estimator is a pure function of
`(make, model, year, price)` and the current year, and for a numeric
price of at least 18 and any numeric year, a premium-set make yields a
triple each of whose components is strictly greater than for an
otherwise-identical make in neither the premium nor the reliable set.
(Strictness fails for smaller prices, where the integer truncation can
collapse the 8% premium to zero.) -/
theorem claim_C7_amended_valuation (cy : ℤ) (make1 make2 model1 model2 year price : Str)
    (p y : ℤ)
    (hp : pyIntOfStr price = some p) (hy : pyIntOfStr year = some y)
    (hp18 : 18 ≤ p)
    (h1 : pyLower make1 ∈ ["bmw", "mercedes", "lexus", "audi"].map String.toList)
    (h2 : pyLower make2 ∉ ["bmw", "mercedes", "lexus", "audi"].map String.toList)
    (h3 : pyLower make2 ∉ ["toyota", "honda", "mazda"].map String.toList) :
    get_market_pricing_estimate cy make1 model1 year price =
      get_market_pricing_estimate cy make1 model1 year price ∧
    List.Forall₂ (fun a b => a < b)
      (get_market_pricing_estimate cy make2 model2 year price)
      (get_market_pricing_estimate cy make1 model1 year price) := by
  refine ⟨rfl, ?_⟩
  have hb1 : brandFactor make1 = 27/25 := by unfold brandFactor; rw [if_pos h1]
  have hb2 : brandFactor make2 = 1 := by
    unfold brandFactor; rw [if_neg h2, if_neg h3]
  simp only [get_market_pricing_estimate, hp, hy, hb1, hb2]
  have haf : (3/4 : ℚ) ≤ ageFactor (cy - y) := le_max_left _ _
  have hpq : (18 : ℚ) ≤ (p : ℚ) := by exact_mod_cast hp18
  have hpaf : (27/2 : ℚ) ≤ (p : ℚ) * ageFactor (cy - y) := by nlinarith
  refine List.Forall₂.cons ?_ (List.Forall₂.cons ?_ (List.Forall₂.cons ?_
    List.Forall₂.nil))
  · rw [show (p : ℚ) * (28/25) * (27/25) * ageFactor (cy - y) * (17/20) =
      (27/25) * ((p : ℚ) * (28/25) * 1 * ageFactor (cy - y) * (17/20)) by ring]
    exact pyTrunc_lt_premium (by nlinarith)
  · rw [show (p : ℚ) * (28/25) * (27/25) * ageFactor (cy - y) * (49/50) =
      (27/25) * ((p : ℚ) * (28/25) * 1 * ageFactor (cy - y) * (49/50)) by ring]
    exact pyTrunc_lt_premium (by nlinarith)
  · rw [show (p : ℚ) * (28/25) * (27/25) * ageFactor (cy - y) * (28/25) =
      (27/25) * ((p : ℚ) * (28/25) * 1 * ageFactor (cy - y) * (28/25)) by ring]
    exact pyTrunc_lt_premium (by nlinarith)

/-- C7 witness: the amended theorem at a 2020 listing priced 10000,
premium `"bmw"` against `"zzz"`. -/
theorem claim_C7_amended_witness :
    List.Forall₂ (fun a b => a < b)
      (get_market_pricing_estimate 2025 "zzz".toList "m".toList
        "2020".toList "10000".toList)
      (get_market_pricing_estimate 2025 "bmw".toList "n".toList
        "2020".toList "10000".toList) :=
  (claim_C7_amended_valuation 2025 "bmw".toList "zzz".toList "n".toList "m".toList
    "2020".toList "10000".toList 10000 2020 (by decide) (by decide) (by decide)
    (by decide) (by decide) (by decide)).2

/-!
## Claims about the deal ratio (C1)
-/

theorem conditionFactor_pos (m : Option ℤ) : 0 < (conditionOf m).2 := by
  rcases m with _ | n
  · norm_num [conditionOf]
  · simp only [conditionOf]
    split_ifs <;> norm_num

theorem one_le_brandFactor (mk : Str) : 1 ≤ brandFactor mk := by
  unfold brandFactor
  split_ifs <;> norm_num

/-- The price-independent value that the computed deal ratio
approximates: condition factor × mean of the three valuation multipliers
× base multiplier × brand factor × age factor.  With exact (unfloored)
arithmetic the deal ratio would equal this constant for every positive
price. -/
def idealRatio (cy : ℤ) (car : List Str) : ℚ :=
  (conditionOf (mileageVal car)).2 * ((17/20 + 49/50 + 28/25) / 3) * (28/25) *
    brandFactor (car.getD 2 []) * ageFactor (cy - scoreYear car)

/-- Pure arithmetic core of the deal-ratio bounds: the ratio computed
from the three floored market components lies in a half-open window of
width `(Cst + cf)/q` just below the price-independent constant `Cst`. -/
theorem ratio_bounds_core (cf k P q A B C : ℚ)
    (hcf : 0 < cf) (hk : 0 < k)
    (hPle : P ≤ q) (hPgt : q - 1 < P) (hq0 : 0 < q)
    (hA1 : A ≤ P * k * (17/20)) (hA2 : P * k * (17/20) - 1 < A)
    (hB1 : B ≤ P * k * (49/50)) (hB2 : P * k * (49/50) - 1 < B)
    (hC1 : C ≤ P * k * (28/25)) (hC2 : P * k * (28/25) - 1 < C) :
    (((A + B + C) / 3) * cf) / q ≤ cf * ((17/20 + 49/50 + 28/25) / 3) * k ∧
    cf * ((17/20 + 49/50 + 28/25) / 3) * k -
        (cf * ((17/20 + 49/50 + 28/25) / 3) * k + cf) / q <
      (((A + B + C) / 3) * cf) / q := by
  have hCst0 : 0 < cf * ((17/20 + 49/50 + 28/25) / 3) * k := by
    nlinarith [mul_pos hcf hk]
  have h1 : A + B + C ≤ P * k * (59/20) := by linarith
  have h4 : P * k * (59/20) - 3 < A + B + C := by linarith
  have h3 : cf * (A + B + C) ≤ cf * (P * k * (59/20)) :=
    mul_le_mul_of_nonneg_left h1 (le_of_lt hcf)
  have h5 : cf * (P * k * (59/20) - 3) < cf * (A + B + C) :=
    mul_lt_mul_of_pos_left h4 hcf
  have h2 : cf * ((17/20 + 49/50 + 28/25) / 3) * k * P ≤
      cf * ((17/20 + 49/50 + 28/25) / 3) * k * q :=
    mul_le_mul_of_nonneg_left hPle (le_of_lt hCst0)
  have h6 : cf * ((17/20 + 49/50 + 28/25) / 3) * k * q <
      cf * ((17/20 + 49/50 + 28/25) / 3) * k * (P + 1) :=
    mul_lt_mul_of_pos_left (by linarith) hCst0
  constructor
  · rw [div_le_iff₀ hq0]
    nlinarith [h3, h2]
  · rw [lt_div_iff₀ hq0]
    have expand : (cf * ((17/20 + 49/50 + 28/25) / 3) * k -
        (cf * ((17/20 + 49/50 + 28/25) / 3) * k + cf) / q) * q =
        cf * ((17/20 + 49/50 + 28/25) / 3) * k * q -
          (cf * ((17/20 + 49/50 + 28/25) / 3) * k + cf) := by
      field_simp
      ring
    rw [expand]
    nlinarith [h5, h6]

/-- Evaluation of the exact deal ratio of a record whose price parses to
a nonzero value, given the market triple. -/
theorem dealRatioExact_eval (cy : ℤ) (car : List Str) (q : ℚ) (t1 t2 t3 : ℤ)
    (hlen : ¬ car.length < 4)
    (hq : pyFloatOfStr (car.getD 0 []) = some q) (hq0 : ¬ q = 0)
    (hm : get_market_pricing_estimate cy (car.getD 2 []) (car.getD 3 [])
      (intToStr (scoreYear car)) (intToStr (pyTrunc q)) = [t1, t2, t3]) :
    dealRatioExact cy car =
      some (((((t1 : ℚ) + ((t2 : ℚ) + ((t3 : ℚ) + 0))) / 3) *
        (conditionOf (mileageVal car)).2) / q) := by
  unfold dealRatioExact scoreCore
  rw [if_neg hlen, hq]
  simp only [hm, Option.map_some', List.foldr_cons, List.foldr_nil,
    List.length_cons, List.length_nil]
  rw [if_neg hq0]
  norm_num

/-- C1 as amended: the deal ratio is price-quantized rather than strictly
monotone.  For any record with a positive parsed price `q`, the computed
exact ratio exists and lies in the window
`(idealRatio - (idealRatio + conditionFactor)/q, idealRatio]` below the
price-independent constant `idealRatio`; with exact arithmetic it would
equal that constant, so decreasing the listing price does not in general
strictly increase the ratio (and can strictly decrease it, see the
counterexample). -/
theorem claim_C1_amended_ratio_quantization (cy : ℤ) (car : List Str) (q : ℚ)
    (hlen : 4 ≤ car.length)
    (hq : pyFloatOfStr (car.getD 0 []) = some q) (hq0 : 0 < q) :
    ∃ r, dealRatioExact cy car = some r ∧
      r ≤ idealRatio cy car ∧
      idealRatio cy car -
        (idealRatio cy car + (conditionOf (mileageVal car)).2) / q < r := by
  have hlen' : ¬ car.length < 4 := by omega
  have hbf1 : 1 ≤ brandFactor (car.getD 2 []) := one_le_brandFactor _
  have hbf0 : (0:ℚ) < brandFactor (car.getD 2 []) := lt_of_lt_of_le one_pos hbf1
  have haf : (3/4 : ℚ) ≤ ageFactor (cy - scoreYear car) := le_max_left _ _
  have haf0 : (0:ℚ) < ageFactor (cy - scoreYear car) :=
    lt_of_lt_of_le (by norm_num) haf
  have hcf : 0 < (conditionOf (mileageVal car)).2 := conditionFactor_pos _
  have hk0 : (0:ℚ) <
      (28/25) * brandFactor (car.getD 2 []) * ageFactor (cy - scoreYear car) :=
    mul_pos (mul_pos (by norm_num) hbf0) haf0
  have htr : pyTrunc q = ⌊q⌋ := if_pos (le_of_lt hq0)
  have hP0 : (0:ℚ) ≤ ((⌊q⌋ : ℤ) : ℚ) := by
    exact_mod_cast Int.floor_nonneg.mpr (le_of_lt hq0)
  have hgm : get_market_pricing_estimate cy (car.getD 2 []) (car.getD 3 [])
      (intToStr (scoreYear car)) (intToStr (pyTrunc q)) =
      [pyTrunc (((⌊q⌋ : ℤ) : ℚ) * (28/25) * brandFactor (car.getD 2 []) *
          ageFactor (cy - scoreYear car) * (17/20)),
       pyTrunc (((⌊q⌋ : ℤ) : ℚ) * (28/25) * brandFactor (car.getD 2 []) *
          ageFactor (cy - scoreYear car) * (49/50)),
       pyTrunc (((⌊q⌋ : ℤ) : ℚ) * (28/25) * brandFactor (car.getD 2 []) *
          ageFactor (cy - scoreYear car) * (28/25))] := by
    simp only [get_market_pricing_estimate, pyIntOfStr_intToStr, htr]
  have hPk : (0:ℚ) ≤ ((⌊q⌋ : ℤ) : ℚ) *
      ((28/25) * brandFactor (car.getD 2 []) * ageFactor (cy - scoreYear car)) :=
    mul_nonneg hP0 (le_of_lt hk0)
  have hx1 : (0:ℚ) ≤ ((⌊q⌋ : ℤ) : ℚ) * (28/25) * brandFactor (car.getD 2 []) *
      ageFactor (cy - scoreYear car) * (17/20) := by nlinarith [hPk]
  have hx2 : (0:ℚ) ≤ ((⌊q⌋ : ℤ) : ℚ) * (28/25) * brandFactor (car.getD 2 []) *
      ageFactor (cy - scoreYear car) * (49/50) := by nlinarith [hPk]
  have hx3 : (0:ℚ) ≤ ((⌊q⌋ : ℤ) : ℚ) * (28/25) * brandFactor (car.getD 2 []) *
      ageFactor (cy - scoreYear car) * (28/25) := by nlinarith [hPk]
  have ht1 : pyTrunc (((⌊q⌋ : ℤ) : ℚ) * (28/25) * brandFactor (car.getD 2 []) *
      ageFactor (cy - scoreYear car) * (17/20)) =
      ⌊((⌊q⌋ : ℤ) : ℚ) * (28/25) * brandFactor (car.getD 2 []) *
        ageFactor (cy - scoreYear car) * (17/20)⌋ := by rw [pyTrunc, if_pos hx1]
  have ht2 : pyTrunc (((⌊q⌋ : ℤ) : ℚ) * (28/25) * brandFactor (car.getD 2 []) *
      ageFactor (cy - scoreYear car) * (49/50)) =
      ⌊((⌊q⌋ : ℤ) : ℚ) * (28/25) * brandFactor (car.getD 2 []) *
        ageFactor (cy - scoreYear car) * (49/50)⌋ := by rw [pyTrunc, if_pos hx2]
  have ht3 : pyTrunc (((⌊q⌋ : ℤ) : ℚ) * (28/25) * brandFactor (car.getD 2 []) *
      ageFactor (cy - scoreYear car) * (28/25)) =
      ⌊((⌊q⌋ : ℤ) : ℚ) * (28/25) * brandFactor (car.getD 2 []) *
        ageFactor (cy - scoreYear car) * (28/25)⌋ := by rw [pyTrunc, if_pos hx3]
  have hA1 : ((⌊((⌊q⌋ : ℤ) : ℚ) * (28/25) * brandFactor (car.getD 2 []) *
      ageFactor (cy - scoreYear car) * (17/20)⌋ : ℤ) : ℚ) ≤
      ((⌊q⌋ : ℤ) : ℚ) * ((28/25) * brandFactor (car.getD 2 []) *
        ageFactor (cy - scoreYear car)) * (17/20) :=
    le_of_le_of_eq (Int.floor_le _) (by ring)
  have hA2 : ((⌊q⌋ : ℤ) : ℚ) * ((28/25) * brandFactor (car.getD 2 []) *
      ageFactor (cy - scoreYear car)) * (17/20) - 1 <
      ((⌊((⌊q⌋ : ℤ) : ℚ) * (28/25) * brandFactor (car.getD 2 []) *
        ageFactor (cy - scoreYear car) * (17/20)⌋ : ℤ) : ℚ) :=
    lt_of_eq_of_lt (by ring) (Int.sub_one_lt_floor _)
  have hB1 : ((⌊((⌊q⌋ : ℤ) : ℚ) * (28/25) * brandFactor (car.getD 2 []) *
      ageFactor (cy - scoreYear car) * (49/50)⌋ : ℤ) : ℚ) ≤
      ((⌊q⌋ : ℤ) : ℚ) * ((28/25) * brandFactor (car.getD 2 []) *
        ageFactor (cy - scoreYear car)) * (49/50) :=
    le_of_le_of_eq (Int.floor_le _) (by ring)
  have hB2 : ((⌊q⌋ : ℤ) : ℚ) * ((28/25) * brandFactor (car.getD 2 []) *
      ageFactor (cy - scoreYear car)) * (49/50) - 1 <
      ((⌊((⌊q⌋ : ℤ) : ℚ) * (28/25) * brandFactor (car.getD 2 []) *
        ageFactor (cy - scoreYear car) * (49/50)⌋ : ℤ) : ℚ) :=
    lt_of_eq_of_lt (by ring) (Int.sub_one_lt_floor _)
  have hC1 : ((⌊((⌊q⌋ : ℤ) : ℚ) * (28/25) * brandFactor (car.getD 2 []) *
      ageFactor (cy - scoreYear car) * (28/25)⌋ : ℤ) : ℚ) ≤
      ((⌊q⌋ : ℤ) : ℚ) * ((28/25) * brandFactor (car.getD 2 []) *
        ageFactor (cy - scoreYear car)) * (28/25) :=
    le_of_le_of_eq (Int.floor_le _) (by ring)
  have hC2 : ((⌊q⌋ : ℤ) : ℚ) * ((28/25) * brandFactor (car.getD 2 []) *
      ageFactor (cy - scoreYear car)) * (28/25) - 1 <
      ((⌊((⌊q⌋ : ℤ) : ℚ) * (28/25) * brandFactor (car.getD 2 []) *
        ageFactor (cy - scoreYear car) * (28/25)⌋ : ℤ) : ℚ) :=
    lt_of_eq_of_lt (by ring) (Int.sub_one_lt_floor _)
  have hcore := ratio_bounds_core (conditionOf (mileageVal car)).2
    ((28/25) * brandFactor (car.getD 2 []) * ageFactor (cy - scoreYear car))
    ((⌊q⌋ : ℤ) : ℚ) q
    ((⌊((⌊q⌋ : ℤ) : ℚ) * (28/25) * brandFactor (car.getD 2 []) *
      ageFactor (cy - scoreYear car) * (17/20)⌋ : ℤ) : ℚ)
    ((⌊((⌊q⌋ : ℤ) : ℚ) * (28/25) * brandFactor (car.getD 2 []) *
      ageFactor (cy - scoreYear car) * (49/50)⌋ : ℤ) : ℚ)
    ((⌊((⌊q⌋ : ℤ) : ℚ) * (28/25) * brandFactor (car.getD 2 []) *
      ageFactor (cy - scoreYear car) * (28/25)⌋ : ℤ) : ℚ)
    hcf hk0 (Int.floor_le q) (Int.sub_one_lt_floor q) hq0
    hA1 hA2 hB1 hB2 hC1 hC2
  have hid : idealRatio cy car = (conditionOf (mileageVal car)).2 *
      ((17/20 + 49/50 + 28/25) / 3) *
      ((28/25) * brandFactor (car.getD 2 []) * ageFactor (cy - scoreYear car)) := by
    unfold idealRatio
    ring
  have hm2 : get_market_pricing_estimate cy (car.getD 2 []) (car.getD 3 [])
      (intToStr (scoreYear car)) (intToStr (pyTrunc q)) =
      [⌊((⌊q⌋ : ℤ) : ℚ) * (28/25) * brandFactor (car.getD 2 []) *
          ageFactor (cy - scoreYear car) * (17/20)⌋,
       ⌊((⌊q⌋ : ℤ) : ℚ) * (28/25) * brandFactor (car.getD 2 []) *
          ageFactor (cy - scoreYear car) * (49/50)⌋,
       ⌊((⌊q⌋ : ℤ) : ℚ) * (28/25) * brandFactor (car.getD 2 []) *
          ageFactor (cy - scoreYear car) * (28/25)⌋] :=
    hgm.trans (by rw [ht1, ht2, ht3])
  refine ⟨_, dealRatioExact_eval cy car q _ _ _ hlen' hq (ne_of_gt hq0) hm2,
    ?_, ?_⟩
  · rw [hid, show ((((⌊((⌊q⌋ : ℤ) : ℚ) * (28/25) * brandFactor (car.getD 2 []) *
        ageFactor (cy - scoreYear car) * (17/20)⌋ : ℤ) : ℚ) +
      (((⌊((⌊q⌋ : ℤ) : ℚ) * (28/25) * brandFactor (car.getD 2 []) *
        ageFactor (cy - scoreYear car) * (49/50)⌋ : ℤ) : ℚ) +
      (((⌊((⌊q⌋ : ℤ) : ℚ) * (28/25) * brandFactor (car.getD 2 []) *
        ageFactor (cy - scoreYear car) * (28/25)⌋ : ℤ) : ℚ) + 0))) / 3 *
      (conditionOf (mileageVal car)).2) / q =
      ((((⌊((⌊q⌋ : ℤ) : ℚ) * (28/25) * brandFactor (car.getD 2 []) *
        ageFactor (cy - scoreYear car) * (17/20)⌋ : ℤ) : ℚ) +
      ((⌊((⌊q⌋ : ℤ) : ℚ) * (28/25) * brandFactor (car.getD 2 []) *
        ageFactor (cy - scoreYear car) * (49/50)⌋ : ℤ) : ℚ) +
      ((⌊((⌊q⌋ : ℤ) : ℚ) * (28/25) * brandFactor (car.getD 2 []) *
        ageFactor (cy - scoreYear car) * (28/25)⌋ : ℤ) : ℚ)) / 3 *
      (conditionOf (mileageVal car)).2) / q by ring]
    exact hcore.1
  · rw [hid, show ((((⌊((⌊q⌋ : ℤ) : ℚ) * (28/25) * brandFactor (car.getD 2 []) *
        ageFactor (cy - scoreYear car) * (17/20)⌋ : ℤ) : ℚ) +
      (((⌊((⌊q⌋ : ℤ) : ℚ) * (28/25) * brandFactor (car.getD 2 []) *
        ageFactor (cy - scoreYear car) * (49/50)⌋ : ℤ) : ℚ) +
      (((⌊((⌊q⌋ : ℤ) : ℚ) * (28/25) * brandFactor (car.getD 2 []) *
        ageFactor (cy - scoreYear car) * (28/25)⌋ : ℤ) : ℚ) + 0))) / 3 *
      (conditionOf (mileageVal car)).2) / q =
      ((((⌊((⌊q⌋ : ℤ) : ℚ) * (28/25) * brandFactor (car.getD 2 []) *
        ageFactor (cy - scoreYear car) * (17/20)⌋ : ℤ) : ℚ) +
      ((⌊((⌊q⌋ : ℤ) : ℚ) * (28/25) * brandFactor (car.getD 2 []) *
        ageFactor (cy - scoreYear car) * (49/50)⌋ : ℤ) : ℚ) +
      ((⌊((⌊q⌋ : ℤ) : ℚ) * (28/25) * brandFactor (car.getD 2 []) *
        ageFactor (cy - scoreYear car) * (28/25)⌋ : ℤ) : ℚ)) / 3 *
      (conditionOf (mileageVal car)).2) / q by ring]
    exact hcore.2

/-- `float(s)` on a nonempty all-digit string yields its decimal value. -/
theorem pyFloatOfStr_digits (c : Char) (rest : Str)
    (hd : (c :: rest).all Char.isDigit = true) :
    pyFloatOfStr (c :: rest) = some ((digitsToNat (c :: rest) : ℚ)) := by
  have hall : ∀ x ∈ c :: rest, x.isDigit = true := List.all_eq_true.mp hd
  have hc : c.isDigit = true := hall c (List.mem_cons_self _ _)
  have hcm : ¬ (c = '-') := by intro h; rw [h] at hc; exact absurd hc (by decide)
  have hcp : ¬ (c = '+') := by intro h; rw [h] at hc; exact absurd hc (by decide)
  have h1 : (c :: rest).takeWhile Char.isDigit = c :: rest :=
    List.takeWhile_eq_self_iff.mpr hall
  have h2 : (c :: rest).dropWhile Char.isDigit = [] :=
    List.dropWhile_eq_nil_iff.mpr hall
  simp only [pyFloatOfStr, if_neg hcm, if_neg hcp, parseFloatBody, h1, h2,
    Option.map_some']
  simp

/-- C1 counterexample: two records identical in year, make, model and
mileage, with prices 9999 < 10000; the lower-priced record's exact deal
ratio 8259/11110 ≈ 0.743384 is strictly SMALLER than the higher-priced
record's 3717/5000 = 0.7434 — the integer truncation of the market
components breaks strict monotonicity in price. -/
theorem claim_C1_counterexample :
    dealRatioExact 2025
        (["9999", "2015", "Zzz", "M", "Unknown", "Unknown", "u1"].map String.toList)
      = some (8259/11110) ∧
    dealRatioExact 2025
        (["10000", "2015", "Zzz", "M", "Unknown", "Unknown", "u2"].map String.toList)
      = some (3717/5000) ∧
    (8259/11110 : ℚ) < 3717/5000 := by
  have hb : brandFactor "Zzz".toList = 1 := by
    unfold brandFactor; rw [if_neg (by decide), if_neg (by decide)]
  have ha : ageFactor (2025 - 2015) = 3/4 := by unfold ageFactor; norm_num
  have hm9 : get_market_pricing_estimate 2025 "Zzz".toList "M".toList
      "2015".toList "9999".toList = [7139, 8231, 9407] := by
    simp only [get_market_pricing_estimate,
      show pyIntOfStr "9999".toList = some 9999 from by decide,
      show pyIntOfStr "2015".toList = some 2015 from by decide, hb, ha]
    norm_num [pyTrunc]
  have hm10 : get_market_pricing_estimate 2025 "Zzz".toList "M".toList
      "2015".toList "10000".toList = [7140, 8232, 9408] := by
    simp only [get_market_pricing_estimate,
      show pyIntOfStr "10000".toList = some 10000 from by decide,
      show pyIntOfStr "2015".toList = some 2015 from by decide, hb, ha]
    norm_num [pyTrunc]
  have htr9 : pyTrunc (9999 : ℚ) = 9999 := by
    rw [pyTrunc, if_pos (by norm_num)]; norm_num
  have htr10 : pyTrunc (10000 : ℚ) = 10000 := by
    rw [pyTrunc, if_pos (by norm_num)]; norm_num
  have hq9 : pyFloatOfStr
      ((["9999", "2015", "Zzz", "M", "Unknown", "Unknown", "u1"].map
        String.toList).getD 0 []) = some 9999 := by
    rw [show (["9999", "2015", "Zzz", "M", "Unknown", "Unknown", "u1"].map
        String.toList).getD 0 [] = '9' :: "999".toList from by decide]
    rw [pyFloatOfStr_digits '9' "999".toList (by decide)]
    norm_num [show digitsToNat ['9', '9', '9', '9'] = 9999 from by decide]
  have hq10 : pyFloatOfStr
      ((["10000", "2015", "Zzz", "M", "Unknown", "Unknown", "u2"].map
        String.toList).getD 0 []) = some 10000 := by
    rw [show (["10000", "2015", "Zzz", "M", "Unknown", "Unknown", "u2"].map
        String.toList).getD 0 [] = '1' :: "0000".toList from by decide]
    rw [pyFloatOfStr_digits '1' "0000".toList (by decide)]
    norm_num [show digitsToNat ['1', '0', '0', '0', '0'] = 10000 from by decide]
  have e9 := dealRatioExact_eval 2025
    (["9999", "2015", "Zzz", "M", "Unknown", "Unknown", "u1"].map String.toList)
    9999 7139 8231 9407 (by decide) hq9 (by norm_num)
    (by
      rw [show (["9999", "2015", "Zzz", "M", "Unknown", "Unknown", "u1"].map
            String.toList).getD 2 [] = "Zzz".toList from by decide,
        show (["9999", "2015", "Zzz", "M", "Unknown", "Unknown", "u1"].map
            String.toList).getD 3 [] = "M".toList from by decide,
        show scoreYear (["9999", "2015", "Zzz", "M", "Unknown", "Unknown",
            "u1"].map String.toList) = 2015 from by decide,
        htr9,
        show intToStr 2015 = "2015".toList from by decide,
        show intToStr 9999 = "9999".toList from by decide]
      exact hm9)
  have e10 := dealRatioExact_eval 2025
    (["10000", "2015", "Zzz", "M", "Unknown", "Unknown", "u2"].map String.toList)
    10000 7140 8232 9408 (by decide) hq10 (by norm_num)
    (by
      rw [show (["10000", "2015", "Zzz", "M", "Unknown", "Unknown", "u2"].map
            String.toList).getD 2 [] = "Zzz".toList from by decide,
        show (["10000", "2015", "Zzz", "M", "Unknown", "Unknown", "u2"].map
            String.toList).getD 3 [] = "M".toList from by decide,
        show scoreYear (["10000", "2015", "Zzz", "M", "Unknown", "Unknown",
            "u2"].map String.toList) = 2015 from by decide,
        htr10,
        show intToStr 2015 = "2015".toList from by decide,
        show intToStr 10000 = "10000".toList from by decide]
      exact hm10)
  refine ⟨e9.trans ?_, e10.trans ?_, by norm_num⟩
  · rw [show conditionOf (mileageVal (["9999", "2015", "Zzz", "M", "Unknown",
        "Unknown", "u1"].map String.toList)) = ("Unknown".toList, 9/10) from rfl]
    norm_num
  · rw [show conditionOf (mileageVal (["10000", "2015", "Zzz", "M", "Unknown",
        "Unknown", "u2"].map String.toList)) = ("Unknown".toList, 9/10) from rfl]
    norm_num

/-- C1 witness: the amended window theorem at the concrete 10000-priced
record. -/
theorem claim_C1_amended_witness :
    ∃ r, dealRatioExact 2025
        (["10000", "2015", "Zzz", "M", "Unknown", "Unknown", "u2"].map
          String.toList) = some r ∧
      r ≤ idealRatio 2025 (["10000", "2015", "Zzz", "M", "Unknown", "Unknown",
          "u2"].map String.toList) ∧
      idealRatio 2025 (["10000", "2015", "Zzz", "M", "Unknown", "Unknown",
          "u2"].map String.toList) -
        (idealRatio 2025 (["10000", "2015", "Zzz", "M", "Unknown", "Unknown",
          "u2"].map String.toList) +
          (conditionOf (mileageVal (["10000", "2015", "Zzz", "M", "Unknown",
            "Unknown", "u2"].map String.toList))).2) / 10000 < r :=
  claim_C1_amended_ratio_quantization 2025
    (["10000", "2015", "Zzz", "M", "Unknown", "Unknown", "u2"].map String.toList)
    10000 (by decide)
    (by
      rw [show (["10000", "2015", "Zzz", "M", "Unknown", "Unknown", "u2"].map
          String.toList).getD 0 [] = '1' :: "0000".toList from by decide]
      rw [pyFloatOfStr_digits '1' "0000".toList (by decide)]
      norm_num [show digitsToNat ['1', '0', '0', '0', '0'] = 10000 from by decide])
    (by norm_num)

/-!
## Claims about the enhanced parser
-/

/-- C5: the four mileage patterns are tried in fixed order against the
lower-cased text with the first match winning, and the captured value is
multiplied by 1000 exactly when the match contains `'k'` and the value is
below 1000: `"85k miles"` gives 85000, `"85000 miles"` gives 85000, a
text where the `k`-pattern beats the earlier plain-miles occurrence gives
the `k`-match (`"10 miles 5k miles"` gives 5000, pattern order), a
`'k'`-suffixed value already at least 1000 (`"1500k"`) is not multiplied,
and in general any first match with `'k'` and value at least 1000 is
returned unmultiplied while one below 1000 is multiplied by 1000. -/
theorem claim_C5_mileage_normalization :
    extractMileage (pyLower "85k miles".toList) = some 85000 ∧
    extractMileage (pyLower "85000 miles".toList) = some 85000 ∧
    extractMileage (pyLower "1500k".toList) = some 1500 ∧
    extractMileage (pyLower "10 miles 5k miles".toList) = some 5000 ∧
    (∀ low run, firstMileageMatch low = some (run, true) →
      1000 ≤ digitsToNat (run.filter (fun c => c ≠ ',')) →
      extractMileage low = some (digitsToNat (run.filter (fun c => c ≠ ',')))) ∧
    (∀ low run, firstMileageMatch low = some (run, true) →
      digitsToNat (run.filter (fun c => c ≠ ',')) < 1000 →
      extractMileage low =
        some (digitsToNat (run.filter (fun c => c ≠ ',')) * 1000)) := by
  refine ⟨by decide, by decide, by decide, by decide, ?_, ?_⟩
  · intro low run h hge
    have hlt : ¬ (digitsToNat (run.filter (fun c => c ≠ ',')) < 1000) := by omega
    simp only [extractMileage, h]
    rw [if_neg (fun hc => hlt hc.2)]
  · intro low run h hlt
    simp only [extractMileage, h]
    rw [if_pos ⟨trivial, hlt⟩]

/-- C5 witness: the no-multiplication clause of the claim applied to the
text `"2000k"`. -/
theorem claim_C5_witness :
    extractMileage "2000k".toList =
      some (digitsToNat (("2000".toList).filter (fun c => c ≠ ','))) :=
  claim_C5_mileage_normalization.2.2.2.2.1 "2000k".toList "2000".toList
    (by decide) (by decide)

/-- No position in the text has a `'$'` immediately followed by a
`[0-9,]` character — i.e. the text contains no `$`-prefixed number in the
sense of the price regex `\$([0-9,]+)`. -/
def dollarNumFree : Str → Bool
  | [] => true
  | [_] => true
  | c :: d :: rest => !(c == '$' && isDigitComma d) && dollarNumFree (d :: rest)

theorem dollarNumFree_tail {c : Char} {l : Str}
    (h : dollarNumFree (c :: l) = true) : dollarNumFree l = true := by
  cases l with
  | nil => rfl
  | cons d rest =>
    exact (Bool.and_eq_true_iff.mp h).2

theorem dollarNumFree_append_right :
    ∀ {x y : Str}, dollarNumFree (x ++ y) = true → dollarNumFree y = true := by
  intro x
  induction x with
  | nil => intro y h; exact h
  | cons c x' ih => intro y h; exact ih (dollarNumFree_tail h)

theorem dollarNumFree_append_left :
    ∀ (t v : Str), dollarNumFree (t ++ v) = true → dollarNumFree t = true
  | [], _, _ => rfl
  | [c], _, _ => rfl
  | c :: d :: t', v, h => by
    have h' := Bool.and_eq_true_iff.mp h
    have hrec := dollarNumFree_append_left (d :: t') v h'.2
    exact Bool.and_eq_true_iff.mpr ⟨h'.1, hrec⟩

theorem dollarNumFree_infix {t s : Str} (u v : Str) (hs : s = u ++ t ++ v)
    (h : dollarNumFree s = true) : dollarNumFree t = true := by
  subst hs
  exact dollarNumFree_append_left t v
    (dollarNumFree_append_right (x := u) (by simpa [List.append_assoc] using h))

theorem findDollarNum_none_of_free :
    ∀ {t : Str}, dollarNumFree t = true → findDollarNum t = none := by
  intro t
  induction t with
  | nil => intro _; rfl
  | cons c rest ih =>
    intro h
    by_cases hc : c = '$'
    · subst hc
      cases rest with
      | nil => rfl
      | cons d r2 =>
        have h1 := (Bool.and_eq_true_iff.mp h).1
        have hd : isDigitComma d = false := by simpa using h1
        have hrun : (d :: r2).takeWhile isDigitComma = [] := by
          simp [List.takeWhile_cons, hd]
        show (if ('$' : Char) = '$' then
            (if ((d :: r2).takeWhile isDigitComma).isEmpty then findDollarNum (d :: r2)
             else some ((d :: r2).takeWhile isDigitComma))
          else findDollarNum (d :: r2)) = none
        rw [if_pos rfl, hrun]
        simpa using ih (dollarNumFree_tail h)
    · show (if c = '$' then
          (if (rest.takeWhile isDigitComma).isEmpty then findDollarNum rest
           else some (rest.takeWhile isDigitComma))
        else findDollarNum rest) = none
      rw [if_neg hc]
      exact ih (dollarNumFree_tail h)

theorem splitWsAux_infix :
    ∀ (s cur t : Str), t ∈ splitWsAux s cur →
      ∃ u v, cur.reverse ++ s = u ++ t ++ v := by
  intro s
  induction s with
  | nil =>
    intro cur t ht
    simp only [splitWsAux] at ht
    by_cases hcur : cur.isEmpty
    · rw [if_pos hcur] at ht
      exact absurd ht (List.not_mem_nil _)
    · rw [if_neg hcur] at ht
      rcases List.mem_cons.mp ht with rfl | hmem
      · exact ⟨[], [], by simp⟩
      · exact absurd hmem (List.not_mem_nil _)
  | cons c rest ih =>
    intro cur t ht
    simp only [splitWsAux] at ht
    by_cases hw : c.isWhitespace
    · rw [if_pos hw] at ht
      by_cases hcur : cur.isEmpty
      · rw [if_pos hcur] at ht
        obtain ⟨u, v, huv⟩ := ih [] t ht
        have hcnil : cur = [] := by
          cases cur with
          | nil => rfl
          | cons a b => exact absurd hcur (by simp)
        refine ⟨c :: u, v, ?_⟩
        simp only [hcnil, List.reverse_nil, List.nil_append] at *
        rw [huv]
        simp
      · rw [if_neg hcur] at ht
        rcases List.mem_cons.mp ht with rfl | hmem
        · exact ⟨[], c :: rest, by simp⟩
        · obtain ⟨u, v, huv⟩ := ih [] t hmem
          simp only [List.reverse_nil, List.nil_append] at huv
          refine ⟨cur.reverse ++ c :: u, v, ?_⟩
          rw [show cur.reverse ++ c :: rest = cur.reverse ++ c :: (u ++ t ++ v) by
            rw [← huv]]
          simp [List.append_assoc]
    · rw [if_neg hw] at ht
      obtain ⟨u, v, huv⟩ := ih (c :: cur) t ht
      refine ⟨u, v, ?_⟩
      rw [← huv]
      simp

theorem splitWsAux_ne_nil :
    ∀ (s cur t : Str), t ∈ splitWsAux s cur → t ≠ [] := by
  intro s
  induction s with
  | nil =>
    intro cur t ht
    simp only [splitWsAux] at ht
    by_cases hcur : cur.isEmpty
    · rw [if_pos hcur] at ht
      exact absurd ht (List.not_mem_nil _)
    · rw [if_neg hcur] at ht
      rcases List.mem_cons.mp ht with rfl | hmem
      · intro hnil
        rw [List.reverse_eq_nil_iff] at hnil
        rw [hnil] at hcur
        exact hcur rfl
      · exact absurd hmem (List.not_mem_nil _)
  | cons c rest ih =>
    intro cur t ht
    simp only [splitWsAux] at ht
    by_cases hw : c.isWhitespace
    · rw [if_pos hw] at ht
      by_cases hcur : cur.isEmpty
      · rw [if_pos hcur] at ht
        exact ih [] t ht
      · rw [if_neg hcur] at ht
        rcases List.mem_cons.mp ht with rfl | hmem
        · intro hnil
          rw [List.reverse_eq_nil_iff] at hnil
          rw [hnil] at hcur
          exact hcur rfl
        · exact ih [] t hmem
    · rw [if_neg hw] at ht
      exact ih (c :: cur) t ht

theorem extractPrice_none (toks : List Str)
    (h : ∀ t ∈ toks, findDollarNum t = none) : extractPrice toks = none := by
  induction toks with
  | nil => rfl
  | cons t rest ih =>
    simp only [extractPrice, h t (List.mem_cons_self _ _)]
    exact ih (fun x hx => h x (List.mem_cons_of_mem _ hx))

theorem extractYear_ne_nil (cy : ℤ) :
    ∀ (toks : List Str) (y : Str), extractYear cy toks = some y → y ≠ [] := by
  intro toks
  induction toks with
  | nil => intro y hy; exact absurd hy (by simp [extractYear])
  | cons t rest ih =>
    intro y hy
    simp only [extractYear] at hy
    split at hy
    · rename_i hcond
      cases hy
      intro hnil
      rw [hnil] at hcond
      exact absurd hcond.1 (by decide)
    · exact ih y hy

theorem pyTitle_ne_nil {s : Str} (h : s ≠ []) : pyTitle s ≠ [] := by
  cases s with
  | nil => exact absurd rfl h
  | cons c rest => simp [pyTitle, pyTitleAux]

theorem extractMakeModel_make_ne_nil :
    ∀ (toks : List Str), (∀ t ∈ toks, t ≠ []) →
      ∀ mk md, extractMakeModel toks = some (mk, md) → mk ≠ [] := by
  intro toks
  induction toks with
  | nil => intro _ mk md h; exact absurd h (by simp [extractMakeModel])
  | cons t rest ih =>
    intro hne mk md h
    simp only [extractMakeModel] at h
    split at h
    · have hp := Option.some.inj h
      have hmk : pyTitle t = mk := congrArg Prod.fst hp
      rw [← hmk]
      exact pyTitle_ne_nil (hne t (List.mem_cons_self _ _))
    · exact ih (fun x hx => hne x (List.mem_cons_of_mem _ hx)) mk md h

/-- C4: the enhanced parser emits a record exactly when a (truthy) price,
a plausible year and a recognized make were all extracted; a text with no
`$`-prefixed number yields no record; and in an emitted record the model,
mileage and location fields default to `"Unknown"` when not extracted. -/
theorem claim_C4_parser_emission (cy : ℤ) (text url : Str) :
    (dollarNumFree text = true → parse_car_text_enhanced cy text url = none) ∧
    ((parse_car_text_enhanced cy text url).isSome ↔
      ((∃ p, extractPrice (splitWs text) = some p ∧ p ≠ []) ∧
        (extractYear cy (splitWs text)).isSome ∧
        (extractMakeModel (splitWs text)).isSome)) ∧
    (∀ r mk, parse_car_text_enhanced cy text url = some r →
      ((extractMakeModel (splitWs text) = some (mk, none) →
          r.getD 3 [] = "Unknown".toList) ∧
       (extractMileage (pyLower text) = none → r.getD 4 [] = "Unknown".toList) ∧
       (searchPat tryLoc1 text = none → searchPat tryLoc2 text = none →
          r.getD 5 [] = "Unknown".toList))) := by
  refine ⟨?_, ?_, ?_⟩
  · intro hf
    have hprice : extractPrice (splitWs text) = none := by
      apply extractPrice_none
      intro t ht
      apply findDollarNum_none_of_free
      obtain ⟨u, v, huv⟩ := splitWsAux_infix text [] t ht
      exact dollarNumFree_infix u v (by simpa using huv) hf
    simp [parse_car_text_enhanced, hprice]
  · rcases hp : extractPrice (splitWs text) with _ | p
    · simp [parse_car_text_enhanced, hp]
    · rcases hy : extractYear cy (splitWs text) with _ | y
      · simp [parse_car_text_enhanced, hp, hy]
      · rcases hmm2 : extractMakeModel (splitWs text) with _ | ⟨mk', md'⟩
        · simp [parse_car_text_enhanced, hp, hy, hmm2]
        · have hy' : y ≠ [] := extractYear_ne_nil cy _ y hy
          have hmk' : mk' ≠ [] := extractMakeModel_make_ne_nil _
            (fun t ht => splitWsAux_ne_nil text [] t ht) mk' md' hmm2
          by_cases hpe : p = []
          · subst hpe
            simp [parse_car_text_enhanced, hp, hy, hmm2]
          · simp [parse_car_text_enhanced, hp, hy, hmm2, hpe, hy', hmk']
  · intro r mk hr
    rcases hp : extractPrice (splitWs text) with _ | p
    · simp [parse_car_text_enhanced, hp] at hr
    · rcases hy : extractYear cy (splitWs text) with _ | y
      · simp [parse_car_text_enhanced, hp, hy] at hr
      · rcases hmm2 : extractMakeModel (splitWs text) with _ | ⟨mk', md'⟩
        · simp [parse_car_text_enhanced, hp, hy, hmm2] at hr
        · simp only [parse_car_text_enhanced, hp, hy, hmm2] at hr
          by_cases hcond : ¬ p.isEmpty ∧ ¬ y.isEmpty ∧ ¬ mk'.isEmpty
          · rw [if_pos hcond] at hr
            have hr' := Option.some.inj hr
            refine ⟨?_, ?_, ?_⟩
            · intro hmd
              have hpair := Option.some.inj hmd
              have hmd' : md' = none := congrArg Prod.snd hpair
              subst hmd'
              rw [← hr']
              rfl
            · intro hmil
              rw [← hr']
              simp [hmil, pyOr]
            · intro hl1 hl2
              rw [← hr']
              simp [extractLoc, hl1, hl2]
          · rw [if_neg hcond] at hr
            exact absurd hr (by simp)

/-- C4 witness: a text without any `$`-prefixed number parses to no
record. -/
theorem claim_C4_witness :
    parse_car_text_enhanced 2025 "2015 Honda Civic 78k miles no price".toList
      "u".toList = none :=
  (claim_C4_parser_emission 2025
    "2015 Honda Civic 78k miles no price".toList "u".toList).1 (by decide)

/-- C10: the worked example.  For any current year at least 2015, parsing
`"2015 Honda Civic $14,500 78k miles Atlanta, GA"` yields the record with
price 14500, year 2015, make Honda, model Civic, mileage 78000 and
location "Atlanta, GA". -/
theorem claim_C10_worked_example (cy : ℤ) (h : 2015 ≤ cy) :
    parse_car_text_enhanced cy
        "2015 Honda Civic $14,500 78k miles Atlanta, GA".toList "url".toList =
      some ["14500".toList, "2015".toList, "Honda".toList, "Civic".toList,
        "78000".toList, "Atlanta, GA".toList, "url".toList] := by
  have htok : splitWs "2015 Honda Civic $14,500 78k miles Atlanta, GA".toList =
      ["2015".toList, "Honda".toList, "Civic".toList, "$14,500".toList,
       "78k".toList, "miles".toList, "Atlanta,".toList, "GA".toList] := by decide
  have hcond : pyIsDigit "2015".toList ∧ ("2015".toList).length = 4 ∧
      1990 ≤ (digitsToNat "2015".toList : ℤ) ∧
      (digitsToNat "2015".toList : ℤ) ≤ cy := by
    refine ⟨by decide, by decide, by decide, ?_⟩
    rw [show (digitsToNat "2015".toList : ℤ) = 2015 from by decide]
    exact h
  have hy : extractYear cy
      ["2015".toList, "Honda".toList, "Civic".toList, "$14,500".toList,
       "78k".toList, "miles".toList, "Atlanta,".toList, "GA".toList] =
      some "2015".toList := by
    show (if pyIsDigit "2015".toList ∧ ("2015".toList).length = 4 ∧
        1990 ≤ (digitsToNat "2015".toList : ℤ) ∧
        (digitsToNat "2015".toList : ℤ) ≤ cy
      then some "2015".toList
      else extractYear cy
        ["Honda".toList, "Civic".toList, "$14,500".toList, "78k".toList,
         "miles".toList, "Atlanta,".toList, "GA".toList]) = some "2015".toList
    rw [if_pos hcond]
  simp only [parse_car_text_enhanced]
  rw [htok, hy,
    show extractPrice
      ["2015".toList, "Honda".toList, "Civic".toList, "$14,500".toList,
       "78k".toList, "miles".toList, "Atlanta,".toList, "GA".toList] =
      some "14500".toList from by decide,
    show extractMakeModel
      ["2015".toList, "Honda".toList, "Civic".toList, "$14,500".toList,
       "78k".toList, "miles".toList, "Atlanta,".toList, "GA".toList] =
      some ("Honda".toList, some "Civic".toList) from by decide]
  decide

/-- C10 witness: the worked example at the concrete current year 2025. -/
theorem claim_C10_witness :
    parse_car_text_enhanced 2025
        "2015 Honda Civic $14,500 78k miles Atlanta, GA".toList "url".toList =
      some ["14500".toList, "2015".toList, "Honda".toList, "Civic".toList,
        "78000".toList, "Atlanta, GA".toList, "url".toList] :=
  claim_C10_worked_example 2025 (by decide)
